import Mathlib

set_option maxHeartbeats 1000000

/-
Verification development for `run_ffnn_jpy_last150test.py`
(a rolling-window FFNN exchange-rate forecaster).

The Python program is shallowly embedded over ℚ:

* IEEE-style float values (finite / +inf / -inf / NaN) are modelled by the
  inductive type `PyFloat`, with arithmetic that mirrors numpy semantics on
  the cases the program exercises (NaN propagation, inf arithmetic,
  comparisons with NaN being false).  The single rational zero stands for
  both IEEE zeros; the program never distinguishes -0.0.
* Transcendental library calls (`np.exp`, `np.sqrt`) are taken as explicit
  function parameters `expQ sqrtQ : ℚ → ℚ`; no claim depends on their
  analytic behaviour, only on where they are applied.
* The torch network, its criterion and the SGD optimizer are an external
  collaborator: model parameters are an abstract type `P`, the forward
  pass is a parameter `netF : P → List ℚ → ℚ`, the single-sample gradient
  computed by `loss.backward()` is a parameter `gradF` (stored in the
  gradient buffer, type `G`), and one full shuffled-batch training epoch
  (`for X_batch, y_batch in train_loader: ... optimizer.step()`) is a
  parameter `sgdEpoch` returning the updated parameters together with the
  mean epoch loss.  The control flow around these calls — which is what
  the claims are about — is embedded faithfully.
* numpy arrays of the series are modelled as functions `ℕ → ℚ` together
  with the explicit length `N`; `log_returns` and `original_prices` are
  produced from the same dataframe, so both have length `N`.
-/

/-- IEEE-style double value as produced by numpy: a finite rational, one of
the two infinities, or NaN. -/
inductive PyFloat where
  | fin (q : ℚ)
  | pinf
  | ninf
  | nan
deriving DecidableEq

namespace PyFloat

/-- numpy `np.isfinite`. -/
def isFinite : PyFloat → Bool
  | fin _ => true
  | _ => false

/-- IEEE addition: NaN propagates, opposite infinities give NaN. -/
def add : PyFloat → PyFloat → PyFloat
  | nan, _ => nan
  | _, nan => nan
  | pinf, ninf => nan
  | ninf, pinf => nan
  | pinf, _ => pinf
  | _, pinf => pinf
  | ninf, _ => ninf
  | _, ninf => ninf
  | fin a, fin b => fin (a + b)

/-- IEEE negation. -/
def neg : PyFloat → PyFloat
  | nan => nan
  | pinf => ninf
  | ninf => pinf
  | fin a => fin (-a)

/-- IEEE subtraction. -/
def sub (a b : PyFloat) : PyFloat := add a (neg b)

/-- IEEE multiplication: NaN propagates, inf times zero is NaN. -/
def mul : PyFloat → PyFloat → PyFloat
  | nan, _ => nan
  | _, nan => nan
  | pinf, pinf => pinf
  | pinf, ninf => ninf
  | ninf, pinf => ninf
  | ninf, ninf => pinf
  | pinf, fin b => if 0 < b then pinf else if b < 0 then ninf else nan
  | fin a, pinf => if 0 < a then pinf else if a < 0 then ninf else nan
  | ninf, fin b => if 0 < b then ninf else if b < 0 then pinf else nan
  | fin a, ninf => if 0 < a then ninf else if a < 0 then pinf else nan
  | fin a, fin b => fin (a * b)

/-- IEEE division as numpy performs it (with warnings suppressed by the
program): finite/0 is a signed infinity, 0/0 and inf/inf are NaN,
finite/inf is 0.  The model's single zero is treated as +0. -/
def div : PyFloat → PyFloat → PyFloat
  | nan, _ => nan
  | _, nan => nan
  | pinf, pinf => nan
  | pinf, ninf => nan
  | ninf, pinf => nan
  | ninf, ninf => nan
  | pinf, fin b => if b < 0 then ninf else pinf
  | ninf, fin b => if b < 0 then pinf else ninf
  | fin _, pinf => fin 0
  | fin _, ninf => fin 0
  | fin a, fin b =>
      if b = 0 then (if a = 0 then nan else if 0 < a then pinf else ninf)
      else fin (a / b)

/-- IEEE absolute value. -/
def abs : PyFloat → PyFloat
  | nan => nan
  | pinf => pinf
  | ninf => pinf
  | fin a => fin |a|

/-- IEEE strict comparison: any comparison with NaN is false. -/
def lt : PyFloat → PyFloat → Bool
  | nan, _ => false
  | _, nan => false
  | ninf, ninf => false
  | ninf, _ => true
  | _, ninf => false
  | pinf, _ => false
  | fin _, pinf => true
  | fin a, fin b => decide (a < b)

/-- numpy `np.sqrt` given an oracle `s` for square roots of nonnegative
rationals: NaN on negative input and NaN, +inf on +inf. -/
def sqrtP (s : ℚ → ℚ) : PyFloat → PyFloat
  | nan => nan
  | pinf => pinf
  | ninf => nan
  | fin q => if q < 0 then nan else fin (s q)

/-- Pairwise maximum as used by `np.max` reduction (NaN propagates). -/
def max2 (a b : PyFloat) : PyFloat :=
  if a = nan ∨ b = nan then nan else if lt a b then b else a

/-- Pairwise minimum as used by `np.min` reduction (NaN propagates). -/
def min2 (a b : PyFloat) : PyFloat :=
  if a = nan ∨ b = nan then nan else if lt b a then b else a

end PyFloat

/-- numpy array sum. -/
def pySum (l : List PyFloat) : PyFloat := l.foldl PyFloat.add (.fin 0)

/-- numpy `np.mean`: sum divided by the length (on the empty array numpy
produces 0/0 = NaN, which `PyFloat.div` also yields). -/
def pyMean (l : List PyFloat) : PyFloat :=
  PyFloat.div (pySum l) (.fin (l.length : ℚ))

/-- numpy `np.max` reduction; the program only evaluates it on nonempty
arrays, the `[]` case is an arbitrary total completion. -/
def pyMax : List PyFloat → PyFloat
  | [] => .nan
  | x :: xs => xs.foldl PyFloat.max2 x

/-- numpy `np.min` reduction; same remark on `[]`. -/
def pyMin : List PyFloat → PyFloat
  | [] => .nan
  | x :: xs => xs.foldl PyFloat.min2 x

/-- The finite entries of an array, as rationals. -/
def finPart (l : List PyFloat) : List ℚ :=
  l.filterMap fun x => match x with
    | .fin q => some q
    | _ => none

/-- Rational mean of the finite entries (used to phrase C7 at the ℚ level). -/
def qMean (l : List PyFloat) : ℚ := (finPart l).sum / ((finPart l).length : ℚ)

/-- Rational maximum of the finite entries. -/
def qMax (l : List PyFloat) : ℚ :=
  match finPart l with
  | [] => 0
  | x :: xs => xs.foldl max x

/-- Rational minimum of the finite entries. -/
def qMin (l : List PyFloat) : ℚ :=
  match finPart l with
  | [] => 0
  | x :: xs => xs.foldl min x

/-- The MAPE mask of `evaluate_model`: `np.abs(y_true) > 1e-7`.  NaN entries
fail the comparison and are masked out, infinite entries pass it. -/
def maskB (t : PyFloat) : Bool := PyFloat.lt (.fin (1 / 10000000)) t.abs

/-- Embeds `np.allclose(x, 0)` for one entry: `|x| <= atol = 1e-8`; false on any
non-finite entry. -/
def nearZero : PyFloat → Bool
  | .fin q => decide (|q| ≤ 1 / 100000000)
  | _ => false

/-- The masked (kept) true/predicted pairs of the MAPE computation. -/
def maskedPairs (t p : List PyFloat) : List (PyFloat × PyFloat) :=
  (t.zip p).filter fun z => maskB z.1

/-- Lines 418-431 of the source: MAPE with the near-zero mask, the
all-masked special case (`0.0` when predictions are all close to 0, `inf`
otherwise) and the final catch turning any lingering non-finite value into
`inf`. -/
def computeMAPE (t p : List PyFloat) : PyFloat :=
  let mp := maskedPairs t p
  let mape :=
    if mp.length = 0 then (if p.all nearZero then .fin 0 else .pinf)
    else PyFloat.mul (pyMean (mp.map fun z => ((z.1.sub z.2).div z.1).abs)) (.fin 100)
  if mape.isFinite then mape else .pinf

/-- Lines 385-408 of the source: substitution for non-finite predictions.
NaN becomes the true-value mean, +inf becomes `2 * max(true)` (or `1e12`
when that maximum is not positive), -inf becomes `2 * min(true)` (or
`-1e12` when that minimum is not negative); when the true values are
themselves unusable the fills are `0` and `±1e12`. -/
def substPreds (t p : List PyFloat) : List PyFloat :=
  let fills : PyFloat × PyFloat × PyFloat :=
    if t.all PyFloat.isFinite && !t.isEmpty then
      ⟨pyMean t,
       if PyFloat.lt (.fin 0) (pyMax t) then (pyMax t).mul (.fin 2) else .fin 1000000000000,
       if PyFloat.lt (pyMin t) (.fin 0) then (pyMin t).mul (.fin 2) else .fin (-1000000000000)⟩
    else ⟨.fin 0, .fin 1000000000000, .fin (-1000000000000)⟩
  p.map fun x => match x with
    | .nan => fills.1
    | .pinf => fills.2.1
    | .ninf => fills.2.2
    | .fin q => .fin q

/-- Embeds `sklearn.metrics.mean_squared_error`. -/
def pyMSE (t p : List PyFloat) : PyFloat :=
  pyMean ((t.zip p).map fun z => (z.1.sub z.2).mul (z.1.sub z.2))

/-- Embeds `sklearn.metrics.mean_absolute_error`. -/
def pyMAE (t p : List PyFloat) : PyFloat :=
  pyMean ((t.zip p).map fun z => (z.1.sub z.2).abs)

/-- Embeds `sklearn.metrics.r2_score`: `1 - ss_res/ss_tot`, returning 1 when the
residual sum is exactly zero and 0 when only the total sum is zero. -/
def pyR2 (t p : List PyFloat) : PyFloat :=
  let tm := pyMean t
  let num := pySum ((t.zip p).map fun z => (z.1.sub z.2).mul (z.1.sub z.2))
  let den := pySum (t.map fun x => (x.sub tm).mul (x.sub tm))
  if num = .fin 0 then .fin 1
  else if den = .fin 0 then .fin 0
  else (PyFloat.fin 1).sub (num.div den)

/-- The five aggregate metrics of `evaluate_model`. -/
structure Metrics where
  mse : PyFloat
  rmse : PyFloat
  mae : PyFloat
  mape : PyFloat
  r2 : PyFloat
deriving DecidableEq

/-- Lines 411-432 of the source: the standard-formula path of the
evaluator, applied to the (possibly substituted) predictions. -/
def stdMetrics (sqrtQ : ℚ → ℚ) (t p : List PyFloat) : Metrics :=
  let mse := pyMSE t p
  ⟨mse, PyFloat.sqrtP sqrtQ mse, pyMAE t p, computeMAPE t p, pyR2 t p⟩

/-- Embeds `evaluate_model` (lines 377-432): the degenerate-length sentinel, the
non-finite-prediction substitution, then the standard formulas. -/
def evaluate_model (sqrtQ : ℚ → ℚ) (t p : List PyFloat) : Metrics :=
  if t.length = 0 ∨ p.length = 0 ∨ t.length ≠ p.length then
    ⟨.pinf, .pinf, .pinf, .pinf, .ninf⟩
  else
    let p2 := if p.all PyFloat.isFinite then p else substPreds t p
    stdMetrics sqrtQ t p2

/-- Embeds `create_sequences` (lines 133-157), on the 2-D numpy-array path the
engine uses: `rows` is the list of feature rows, windows cover indices
`[i, i+lookback)` and the target is column 0 of the row at `i+lookback`.
For `len(rows) ≤ lookback` the Python `range` is empty and so is the
result. -/
def create_sequences (rows : List (List ℚ)) (lookback : ℕ) :
    List (List (List ℚ)) × List ℚ :=
  ((List.range (rows.length - lookback)).map fun i => (rows.drop i).take lookback,
   (List.range (rows.length - lookback)).map fun i => (rows.getD (i + lookback) []).getD 0 0)

/-- Embeds the `sklearn.preprocessing.StandardScaler` state: mean and scale. -/
structure Scaler where
  mean : ℚ
  scale : ℚ
deriving DecidableEq

/-- Embeds `StandardScaler.fit` on a 1-column array: population mean and standard
deviation (`sqrtQ` of the population variance), with sklearn's replacement
of a zero scale by 1. -/
def fitScaler (sqrtQ : ℚ → ℚ) (xs : List ℚ) : Scaler :=
  let m := xs.sum / (xs.length : ℚ)
  let s := sqrtQ ((xs.map fun x => (x - m) * (x - m)).sum / (xs.length : ℚ))
  ⟨m, if s = 0 then 1 else s⟩

/-- Embeds `StandardScaler.transform` of one value. -/
def scTransform (sc : Scaler) (x : ℚ) : ℚ := (x - sc.mean) / sc.scale

/-- Embeds `StandardScaler.inverse_transform` of one value. -/
def scInverse (sc : Scaler) (x : ℚ) : ℚ := x * sc.scale + sc.mean

/-- Result of `rolling_forecast_ffnn`: either the pair of collected
true/predicted price arrays, or the single `np.zeros(pred_len)` array the
function returns when no initial training sample can be built. -/
inductive RollResult where
  | pair (trues preds : List ℚ)
  | zeros (n : ℕ)
deriving DecidableEq

/-- Mutable state threaded through the walk-forward loop: the model
parameters together with the optimizer's momentum buffers (`params`), the
gradient buffer written by `loss.backward()` (`gradBuf`), and the two
collected price lists. -/
structure LoopState (P G : Type) where
  params : P
  gradBuf : Option G
  trues : List ℚ
  preds : List ℚ

/-- Embeds `log_returns[i-lookback:i]` as read at walk-forward iteration `i`
(line 337); the loop only reaches this with `lookback ≤ i`. -/
def rollWindow (logs : ℕ → ℚ) (lookback i : ℕ) : List ℚ :=
  (List.range lookback).map fun j => logs (i - lookback + j)

/-- One iteration of the walk-forward loop (lines 335-372).  The model
predicts from the standardized window; if a future true value exists
(`i < N - 1`, equivalently `i + 1 < N`) the "incremental update" block
runs `zero_grad`/`forward`/`backward`, which overwrites the gradient
buffer with the criterion gradient at the standardized window and the
standardized just-revealed label `log_returns[i]` — the source never calls
`optimizer.step()` here, so `params` is not written.  Finally, if index
`i+1` exists the pair (true price, reconstructed predicted price) is
recorded. -/
def rollIter {P G : Type} (expQ : ℚ → ℚ) (netF : P → List ℚ → ℚ)
    (gradF : P → List ℚ → ℚ → G) (sc : Scaler) (logs prices : ℕ → ℚ)
    (N lookback : ℕ) (st : LoopState P G) (i : ℕ) : LoopState P G :=
  let scaledWin := (rollWindow logs lookback i).map (scTransform sc)
  let predLog := scInverse sc (netF st.params scaledWin)
  let st1 :=
    if i + 1 < N then
      { st with gradBuf := some (gradF st.params scaledWin (scTransform sc (logs i))) }
    else st
  if i + 1 < N then
    { st1 with
        trues := st1.trues ++ [prices (i + 1)],
        preds := st1.preds ++ [prices i * expQ predLog] }
  else st1

/-- Embeds `test_start_idx_log = num_total_log_points - fixed_test_set_size`
(line 265), as the Python integer (possibly negative). -/
def engineTs (N T : ℕ) : ℤ := (N : ℤ) - (T : ℤ)

/-- The standardization transform of phase 1, fit on the log-returns at
indices `[0, ts)` only (lines 288-289). -/
def engineScaler (sqrtQ : ℚ → ℚ) (logs : ℕ → ℚ) (ts : ℕ) : Scaler :=
  fitScaler sqrtQ ((List.range ts).map logs)

/-- Embeds `scaler.fit_transform(log_returns[:ts].reshape(-1,1))`: the scaled
training series as a (ts, 1) array, i.e. a list of 1-entry rows. -/
def scaledTrainRows (sqrtQ : ℚ → ℚ) (logs : ℕ → ℚ) (ts : ℕ) : List (List ℚ) :=
  (List.range ts).map fun j => [scTransform (engineScaler sqrtQ logs ts) (logs j)]

/-- The engine's phase-1 initial training loop (lines 311-325): a plain
`for epoch in range(epochs)` over `sgdEpoch` — one full pass over the
shuffled batches with `optimizer.step()` on each — with no gradient
clipping, no scheduler, no early stopping and no best-state snapshot; the
mean epoch loss is computed only to be printed. -/
def engineInitialTrain {P : Type} (sgdEpoch : P → P × ℚ) : ℕ → P → P
  | 0, p => p
  | n + 1, p => engineInitialTrain sgdEpoch n (sgdEpoch p).1

/-- Phase-1 model parameters: initial training on the window/target pairs
built from the scaled prefix (lines 292-325). -/
def enginePhase1 {P : Type} (sqrtQ : ℚ → ℚ)
    (sgdEpoch : List (List ℚ) × List ℚ → P → P × ℚ) (p0 : P) (epochs : ℕ)
    (logs : ℕ → ℚ) (ts lookback : ℕ) : P :=
  let XY := create_sequences (scaledTrainRows sqrtQ logs ts) lookback
  engineInitialTrain (sgdEpoch (XY.1.map List.flatten, XY.2)) epochs p0

/-- The walk-forward loop state after the first `m` iterations, starting
from the phase-1 parameters and an empty record. -/
def engineLoopState {P G : Type} (sqrtQ expQ : ℚ → ℚ) (netF : P → List ℚ → ℚ)
    (gradF : P → List ℚ → ℚ → G)
    (sgdEpoch : List (List ℚ) × List ℚ → P → P × ℚ) (p0 : P)
    (logs prices : ℕ → ℚ) (N lookback ts epochs m : ℕ) : LoopState P G :=
  (List.range' ts m).foldl
    (rollIter expQ netF gradF (engineScaler sqrtQ logs ts) logs prices N lookback)
    ⟨enginePhase1 sqrtQ sgdEpoch p0 epochs logs ts lookback, none, [], []⟩

/-- Embeds `rolling_forecast_ffnn` (lines 259-374).  Early exit with an empty
pair when `test_start < lookback`; `np.zeros(pred_len)` when no initial
training sample exists; otherwise phase-1 training followed by the
walk-forward loop over `range(ts, N - pred_len + 1)`, returning the
collected true/predicted price arrays. -/
def rolling_forecast_ffnn {P G : Type} (sqrtQ expQ : ℚ → ℚ)
    (netF : P → List ℚ → ℚ) (gradF : P → List ℚ → ℚ → G)
    (sgdEpoch : List (List ℚ) × List ℚ → P → P × ℚ) (p0 : P)
    (logs prices : ℕ → ℚ) (N T lookback pred_len epochs : ℕ) : RollResult :=
  if engineTs N T < (lookback : ℤ) then .pair [] []
  else
    let ts := (engineTs N T).toNat
    if (create_sequences (scaledTrainRows sqrtQ logs ts) lookback).1.length = 0 then
      .zeros pred_len
    else
      let stF := engineLoopState sqrtQ expQ netF gradF sgdEpoch p0 logs prices
        N lookback ts epochs (N + 1 - pred_len - ts)
      .pair stF.trues stF.preds

/-- The caller's unpacking `true_prices, pred_prices = rolling_forecast_ffnn(...)`
(line 690) with the program's `pred_len = 1`: a pair unpacks, while the
length-1 `np.zeros(1)` array raises `ValueError` (modelled as `none`). -/
def mainUnpack : RollResult → Option (List ℚ × List ℚ)
  | .pair t p => some (t, p)
  | .zeros _ => none

/-- The grid driver's handling of one engine result (lines 690-742):
unpack, then evaluate the metrics when both arrays are nonempty and of
equal length, and otherwise record the sentinel metrics of
`evaluate_model([], [])` — the run continues either way. -/
def gridOutcome (sqrtQ : ℚ → ℚ) (r : RollResult) : Option Metrics :=
  match mainUnpack r with
  | none => none
  | some (t, p) =>
      some (if 0 < t.length ∧ 0 < p.length ∧ t.length = p.length
            then evaluate_model sqrtQ (t.map .fin) (p.map .fin)
            else evaluate_model sqrtQ [] [])

/-- Training-loop state of `train_and_predict_ffnn_step` (lines 201-238):
model/optimizer parameters, the current learning rate held by the
optimizer, the early-stopping tracker (`best_loss` as `none` for the
initial `inf`, `patience_counter`, `best_model_state`), the
`ReduceLROnPlateau` scheduler's own tracker (`schedBest` for its `best`,
`schedBad` for `num_bad_epochs`), the early-stop flag, and the number of
completed epochs. -/
structure FitState (P : Type) where
  params : P
  lr : ℚ
  bestLoss : Option ℚ
  patienceCtr : ℕ
  bestState : Option P
  schedBest : Option ℚ
  schedBad : ℕ
  stopped : Bool
  epochsRun : ℕ

/-- Initial `FitState`. -/
def fitInit {P : Type} (p0 : P) (lr0 : ℚ) : FitState P :=
  ⟨p0, lr0, none, 0, none, none, 0, false, 0⟩

/-- Embeds `ReduceLROnPlateau._is_better` in `min`/`rel` mode with the default
threshold `1e-4`: the loss must undercut `best * (1 - 1e-4)`. -/
def schedImproves (cur : ℚ) : Option ℚ → Bool
  | none => true
  | some b => decide (cur < b * (1 - 1 / 10000))

/-- Embeds `ReduceLROnPlateau._reduce_lr` bookkeeping: after more than
`patience = 10` bad epochs, halve the rate (`factor = 0.5`) provided the
reduction exceeds `eps = 1e-8`, and reset the bad-epoch counter. -/
def plateauNext (lr : ℚ) (bad : ℕ) : ℚ × ℕ :=
  if 10 < bad then
    (if 1 / 100000000 < lr - lr * (1 / 2) then lr * (1 / 2) else lr, 0)
  else (lr, bad)

/-- One epoch of the `train_and_predict_ffnn_step` loop (lines 207-238).
`runEpoch cap lr p` is one full pass over the shuffled batches with
gradient-norm clipping at `cap` before each `optimizer.step()`, returning
the updated parameters and the mean epoch loss; the loop invokes it with
the source's `max_norm = 1.0`.  After the epoch: `scheduler.step(loss)`,
then the early-stopping update (`best_loss`/`best_model_state`/
`patience_counter`, breaking once the counter reaches `patience = 20`).
A stopped state is a fixed point, matching the `break`. -/
def fitStep {P : Type} (runEpoch : ℚ → ℚ → P → P × ℚ) (st : FitState P) :
    FitState P :=
  if st.stopped then st
  else
    let r := runEpoch 1 st.lr st.params
    let sb := if schedImproves r.2 st.schedBest then some r.2 else st.schedBest
    let bad1 := if schedImproves r.2 st.schedBest then 0 else st.schedBad + 1
    let ln := plateauNext st.lr bad1
    let improves : Bool :=
      match st.bestLoss with
      | none => true
      | some b => decide (r.2 < b)
    if improves then
      ⟨r.1, ln.1, some r.2, 0, some r.1, sb, ln.2, false, st.epochsRun + 1⟩
    else
      ⟨r.1, ln.1, st.bestLoss, st.patienceCtr + 1, st.bestState, sb, ln.2,
       decide (20 ≤ st.patienceCtr + 1), st.epochsRun + 1⟩

/-- The parameters `train_and_predict_ffnn_step` predicts with after its
training loop (lines 240-242): the best-loss snapshot when one was taken,
else the final parameters. -/
def fitResultParams {P : Type} (runEpoch : ℚ → ℚ → P → P × ℚ) (epochs : ℕ)
    (p0 : P) (lr0 : ℚ) : P :=
  let stF := (fitStep runEpoch)^[epochs] (fitInit p0 lr0)
  match stF.bestState with
  | some b => b
  | none => stF.params

/-- One walk-forward iteration writes at most the gradient buffer and the
record lists: the model parameters are untouched (there is no
`optimizer.step()` in the incremental-update block). -/
theorem rollIter_params {P G : Type} (expQ : ℚ → ℚ) (netF : P → List ℚ → ℚ)
    (gradF : P → List ℚ → ℚ → G) (sc : Scaler) (logs prices : ℕ → ℚ)
    (N lookback : ℕ) (st : LoopState P G) (i : ℕ) :
    (rollIter expQ netF gradF sc logs prices N lookback st i).params = st.params := by
  unfold rollIter
  by_cases h : i + 1 < N <;> simp [h]

/-- The parameters are invariant along any walk-forward fold. -/
theorem loopFold_params {P G : Type} (expQ : ℚ → ℚ) (netF : P → List ℚ → ℚ)
    (gradF : P → List ℚ → ℚ → G) (sc : Scaler) (logs prices : ℕ → ℚ)
    (N lookback : ℕ) (l : List ℕ) (st : LoopState P G) :
    (l.foldl (rollIter expQ netF gradF sc logs prices N lookback) st).params
      = st.params := by
  induction l generalizing st with
  | nil => rfl
  | cons i l ih => rw [List.foldl_cons, ih, rollIter_params]

/-- The true-price list appended by one iteration. -/
theorem rollIter_trues {P G : Type} (expQ : ℚ → ℚ) (netF : P → List ℚ → ℚ)
    (gradF : P → List ℚ → ℚ → G) (sc : Scaler) (logs prices : ℕ → ℚ)
    (N lookback : ℕ) (st : LoopState P G) (i : ℕ) :
    (rollIter expQ netF gradF sc logs prices N lookback st i).trues
      = st.trues ++ (if i + 1 < N then [prices (i + 1)] else []) := by
  unfold rollIter
  by_cases h : i + 1 < N <;> simp [h]

/-- The predicted-price list appended by one iteration. -/
theorem rollIter_preds {P G : Type} (expQ : ℚ → ℚ) (netF : P → List ℚ → ℚ)
    (gradF : P → List ℚ → ℚ → G) (sc : Scaler) (logs prices : ℕ → ℚ)
    (N lookback : ℕ) (st : LoopState P G) (i : ℕ) :
    (rollIter expQ netF gradF sc logs prices N lookback st i).preds
      = st.preds ++ (if i + 1 < N then
          [prices i * expQ (scInverse sc
            (netF st.params ((rollWindow logs lookback i).map (scTransform sc))))]
        else []) := by
  unfold rollIter
  by_cases h : i + 1 < N <;> simp [h]

/-- Closed form of the true prices collected by a walk-forward fold. -/
theorem loopFold_trues {P G : Type} (expQ : ℚ → ℚ) (netF : P → List ℚ → ℚ)
    (gradF : P → List ℚ → ℚ → G) (sc : Scaler) (logs prices : ℕ → ℚ)
    (N lookback : ℕ) (l : List ℕ) (st : LoopState P G) :
    (l.foldl (rollIter expQ netF gradF sc logs prices N lookback) st).trues
      = st.trues ++ l.filterMap
          (fun i => if i + 1 < N then some (prices (i + 1)) else none) := by
  induction l generalizing st with
  | nil => simp
  | cons i l ih =>
      rw [List.foldl_cons, ih, rollIter_trues, List.filterMap_cons]
      by_cases h : i + 1 < N <;> simp [h]

/-- Closed form of the predicted prices collected by a walk-forward fold:
every prediction is made with the parameters held at entry (they never
change during the loop). -/
theorem loopFold_preds {P G : Type} (expQ : ℚ → ℚ) (netF : P → List ℚ → ℚ)
    (gradF : P → List ℚ → ℚ → G) (sc : Scaler) (logs prices : ℕ → ℚ)
    (N lookback : ℕ) (l : List ℕ) (st : LoopState P G) :
    (l.foldl (rollIter expQ netF gradF sc logs prices N lookback) st).preds
      = st.preds ++ l.filterMap
          (fun i => if i + 1 < N then
              some (prices i * expQ (scInverse sc
                (netF st.params ((rollWindow logs lookback i).map (scTransform sc)))))
            else none) := by
  induction l generalizing st with
  | nil => simp
  | cons i l ih =>
      rw [List.foldl_cons, ih, rollIter_preds, List.filterMap_cons]
      simp only [rollIter_params]
      by_cases h : i + 1 < N <;> simp [h]

/-- C1: the claim says the engine performs one incremental gradient-descent
update at every walk-forward iteration with a future true value, changing
the `ModelState` before the next prediction.  The source's
incremental-update block (lines 349-362) runs `optimizer.zero_grad()`,
the forward pass, `criterion` and `loss.backward()` but never calls
`optimizer.step()`, so only the gradient buffer is written: the model
parameters after any iteration — and hence after any run of the loop —
are exactly the phase-1 parameters.  This refutes the parameter-change
part of the claim on every input, exhibiting the code bug. -/
theorem C1_update_step_never_changes_params {P G : Type} (expQ : ℚ → ℚ)
    (netF : P → List ℚ → ℚ) (gradF : P → List ℚ → ℚ → G) (sc : Scaler)
    (logs prices : ℕ → ℚ) (N lookback : ℕ) :
    (∀ (st : LoopState P G) (i : ℕ),
      (rollIter expQ netF gradF sc logs prices N lookback st i).params = st.params) ∧
    (∀ (l : List ℕ) (st : LoopState P G),
      (l.foldl (rollIter expQ netF gradF sc logs prices N lookback) st).params
        = st.params) :=
  ⟨rollIter_params expQ netF gradF sc logs prices N lookback,
   loopFold_params expQ netF gradF sc logs prices N lookback⟩

/-- C6: on empty or mismatched-length inputs the evaluator returns the
sentinel metrics (MSE = RMSE = MAE = MAPE = +inf, R2 = -inf) without
raising — the embedding is a total function and this branch returns the
sentinel record directly. -/
theorem C6_degenerate_lengths (sqrtQ : ℚ → ℚ) (t p : List PyFloat)
    (h : t.length = 0 ∨ p.length = 0 ∨ t.length ≠ p.length) :
    evaluate_model sqrtQ t p = ⟨.pinf, .pinf, .pinf, .pinf, .ninf⟩ := by
  unfold evaluate_model
  rw [if_pos h]

/-- Witness for C6 at the concrete degenerate input `([], [1.0])`. -/
theorem C6_witness :
    evaluate_model id [] [PyFloat.fin 1] = ⟨.pinf, .pinf, .pinf, .pinf, .ninf⟩ :=
  C6_degenerate_lengths id [] [PyFloat.fin 1] (Or.inl rfl)

/-- C9: the sequence builder returns the empty pair when the series length
is at most `lookback`, and otherwise exactly `length - lookback` pairs
where window `i` is the row slice `[i, i+lookback)`, the target is column
0 of the row at index `i + lookback`, and every row index used by window
`i` is strictly below the target's index `i + lookback` (no-leakage). -/
theorem C9_sequence_builder (rows : List (List ℚ)) (lookback : ℕ)
    (hL : 1 ≤ lookback) :
    (rows.length ≤ lookback → create_sequences rows lookback = ([], [])) ∧
    (lookback < rows.length →
      (create_sequences rows lookback).1.length = rows.length - lookback ∧
      (create_sequences rows lookback).2.length = rows.length - lookback ∧
      (∀ i, i < rows.length - lookback →
        (create_sequences rows lookback).1.getD i [] = (rows.drop i).take lookback ∧
        (create_sequences rows lookback).2.getD i 0
          = (rows.getD (i + lookback) []).getD 0 0 ∧
        (∀ j, j < lookback → i + j < i + lookback))) := by
  constructor
  · intro h
    unfold create_sequences
    rw [Nat.sub_eq_zero_of_le h]
    simp
  · intro _
    refine ⟨by simp [create_sequences], by simp [create_sequences], ?_⟩
    intro i hi
    have h1 : i < ((List.range (rows.length - lookback)).map
        fun i => (rows.drop i).take lookback).length := by simpa using hi
    have h2 : i < ((List.range (rows.length - lookback)).map
        fun i => (rows.getD (i + lookback) []).getD 0 0).length := by simpa using hi
    refine ⟨?_, ?_, fun j hj => by omega⟩
    · unfold create_sequences
      rw [List.getD_eq_getElem _ _ h1]
      simp
    · unfold create_sequences
      rw [List.getD_eq_getElem _ _ h2]
      simp

/-- Witness for C9 at `rows = [[1],[2],[3]]`, `lookback = 1`: two pairs,
with the second window `[[2]]` and target `3`. -/
theorem C9_witness :
    (create_sequences [[1], [2], [3]] 1).1.length = 2 ∧
    (create_sequences [[1], [2], [3]] 1).1.getD 1 [] = [[2]] ∧
    (create_sequences [[1], [2], [3]] 1).2.getD 1 0 = 3 := by
  have h := C9_sequence_builder [[1], [2], [3]] 1 (by decide)
  have h2 := (h.2 (by decide) |>.2.2) 1 (by decide)
  exact ⟨(h.2 (by decide)).1, by rw [h2.1]; rfl, by rw [h2.2.1]; rfl⟩

/-- The scaled training series has one row per index below `ts`. -/
theorem scaledTrainRows_length (sqrtQ : ℚ → ℚ) (logs : ℕ → ℚ) (ts : ℕ) :
    (scaledTrainRows sqrtQ logs ts).length = ts := by
  simp [scaledTrainRows]

/-- The number of windows produced by the sequence builder. -/
theorem create_sequences_fst_length (rows : List (List ℚ)) (lookback : ℕ) :
    (create_sequences rows lookback).1.length = rows.length - lookback := by
  simp [create_sequences]

/-- Guard branch of the engine (lines 267-269): `test_start < lookback`
returns the empty pair. -/
theorem rolling_guard_branch {P G : Type} (sqrtQ expQ : ℚ → ℚ)
    (netF : P → List ℚ → ℚ) (gradF : P → List ℚ → ℚ → G)
    (sgdEpoch : List (List ℚ) × List ℚ → P → P × ℚ) (p0 : P)
    (logs prices : ℕ → ℚ) (N T lookback pred_len epochs : ℕ)
    (h : engineTs N T < (lookback : ℤ)) :
    rolling_forecast_ffnn sqrtQ expQ netF gradF sgdEpoch p0 logs prices
      N T lookback pred_len epochs = .pair [] [] := by
  unfold rolling_forecast_ffnn
  rw [if_pos h]

/-- Empty-training branch of the engine (lines 299-300): when the guard
passes but `test_start ≤ lookback` no window exists and the function
returns `np.zeros(pred_len)`. -/
theorem rolling_zeros_branch {P G : Type} (sqrtQ expQ : ℚ → ℚ)
    (netF : P → List ℚ → ℚ) (gradF : P → List ℚ → ℚ → G)
    (sgdEpoch : List (List ℚ) × List ℚ → P → P × ℚ) (p0 : P)
    (logs prices : ℕ → ℚ) (N T lookback pred_len epochs : ℕ)
    (hg : ¬ engineTs N T < (lookback : ℤ))
    (hts : (engineTs N T).toNat ≤ lookback) :
    rolling_forecast_ffnn sqrtQ expQ netF gradF sgdEpoch p0 logs prices
      N T lookback pred_len epochs = .zeros pred_len := by
  unfold rolling_forecast_ffnn
  rw [if_neg hg, if_pos]
  rw [create_sequences_fst_length, scaledTrainRows_length]
  omega

/-- Main branch of the engine: with `lookback < test_start` the result is
the pair of record lists in closed form — these are the collected
true/predicted prices of the walk-forward loop, every prediction made
with the phase-1 parameters and the phase-1 standardization. -/
theorem rolling_main_branch {P G : Type} (sqrtQ expQ : ℚ → ℚ)
    (netF : P → List ℚ → ℚ) (gradF : P → List ℚ → ℚ → G)
    (sgdEpoch : List (List ℚ) × List ℚ → P → P × ℚ) (p0 : P)
    (logs prices : ℕ → ℚ) (N T lookback pred_len epochs : ℕ)
    (h : (lookback : ℤ) < engineTs N T) :
    rolling_forecast_ffnn sqrtQ expQ netF gradF sgdEpoch p0 logs prices
        N T lookback pred_len epochs
      = .pair
          ((List.range' (engineTs N T).toNat (N + 1 - pred_len - (engineTs N T).toNat)).filterMap
            fun i => if i + 1 < N then some (prices (i + 1)) else none)
          ((List.range' (engineTs N T).toNat (N + 1 - pred_len - (engineTs N T).toNat)).filterMap
            fun i => if i + 1 < N then
                some (prices i * expQ (scInverse (engineScaler sqrtQ logs (engineTs N T).toNat)
                  (netF (enginePhase1 sqrtQ sgdEpoch p0 epochs logs (engineTs N T).toNat lookback)
                    ((rollWindow logs lookback i).map
                      (scTransform (engineScaler sqrtQ logs (engineTs N T).toNat))))))
              else none) := by
  have hg : ¬ engineTs N T < (lookback : ℤ) := by omega
  have hts : lookback < (engineTs N T).toNat := by omega
  unfold rolling_forecast_ffnn
  rw [if_neg hg, if_neg]
  · simp only [engineLoopState, loopFold_trues, loopFold_preds]
    simp
  · rw [create_sequences_fst_length, scaledTrainRows_length]
    omega

/-- A record-collecting `filterMap` over the loop's index range is empty
exactly when the range is empty or no index has a successor below `N`. -/
theorem filterMap_record_empty {α : Type} (f : ℕ → α) (N s n : ℕ) :
    ((List.range' s n).filterMap fun i => if i + 1 < N then some (f i) else none) = []
      ↔ (n = 0 ∨ N ≤ s + 1) := by
  rw [List.filterMap_eq_nil_iff]
  constructor
  · intro h
    by_contra hc
    push_neg at hc
    have hs : s ∈ List.range' s n := by
      rw [List.mem_range'_1]
      omega
    have := h s hs
    rw [if_pos (by omega)] at this
    exact Option.noConfusion this
  · intro h i hi
    rw [List.mem_range'_1] at hi
    rw [if_neg (by omega)]

/-- C5: when `test_start < lookback` the engine returns the empty pair of
arrays without raising (the embedding is total and takes the guard
branch), and the grid driver turns this into the sentinel metrics record
and continues — the condition is fatal only for that configuration. -/
theorem C5_insufficient_history {P G : Type} (sqrtQ expQ : ℚ → ℚ)
    (netF : P → List ℚ → ℚ) (gradF : P → List ℚ → ℚ → G)
    (sgdEpoch : List (List ℚ) × List ℚ → P → P × ℚ) (p0 : P)
    (logs prices : ℕ → ℚ) (N T lookback pred_len epochs : ℕ)
    (h : engineTs N T < (lookback : ℤ)) :
    rolling_forecast_ffnn sqrtQ expQ netF gradF sgdEpoch p0 logs prices
        N T lookback pred_len epochs = .pair [] [] ∧
    gridOutcome sqrtQ (rolling_forecast_ffnn sqrtQ expQ netF gradF sgdEpoch p0
        logs prices N T lookback pred_len epochs)
      = some ⟨.pinf, .pinf, .pinf, .pinf, .ninf⟩ := by
  have hp := rolling_guard_branch sqrtQ expQ netF gradF sgdEpoch p0 logs prices
    N T lookback pred_len epochs h
  refine ⟨hp, ?_⟩
  rw [hp]
  rfl

/-- Witness for C5: with 2 points, test size 3 and lookback 1 we have
`test_start = -1 < 1`; the engine yields the empty pair and the driver the
sentinel metrics. -/
theorem C5_witness :
    rolling_forecast_ffnn (P := Unit) (G := Unit) id id (fun _ _ => 0)
        (fun _ _ _ => ()) (fun _ p => (p, 0)) () (fun _ => 0) (fun _ => 1)
        2 3 1 1 5 = .pair [] [] ∧
    gridOutcome id (rolling_forecast_ffnn (P := Unit) (G := Unit) id id
        (fun _ _ => 0) (fun _ _ _ => ()) (fun _ p => (p, 0)) () (fun _ => 0)
        (fun _ => 1) 2 3 1 1 5)
      = some ⟨.pinf, .pinf, .pinf, .pinf, .ninf⟩ :=
  C5_insufficient_history id id (fun _ _ => 0) (fun _ _ _ => ())
    (fun _ p => (p, 0)) () (fun _ => 0) (fun _ => 1) 2 3 1 1 5 (by decide)

/-- C10 counterexample: the claim asserts the empty-pair result is
produced only when `test_start < lookback`.  With `N = 4`, `T = 1`,
`lookback = 2` we have `test_start = 3 ≥ lookback`, the engine proceeds
to the walk-forward loop, but its single iteration `i = 3` has no index
`i + 1 < 4` to record, so the engine still returns the empty pair. -/
theorem C10_counterexample :
    rolling_forecast_ffnn (P := Unit) (G := Unit) id id (fun _ _ => 0)
        (fun _ _ _ => ()) (fun _ p => (p, 0)) () (fun _ => 0) (fun _ => 1)
        4 1 2 1 5 = .pair [] [] ∧
    ¬ engineTs 4 1 < (2 : ℤ) := by
  refine ⟨?_, by decide⟩
  rw [rolling_main_branch id id (fun _ _ => 0) (fun _ _ _ => ())
    (fun _ p => (p, 0)) () (fun _ => 0) (fun _ => 1) 4 1 2 1 5 (by decide)]
  rfl

/-- C10 (amended): when the guard passes but `test_start = lookback`
exactly, no training window exists and the engine returns the single
array `np.zeros(pred_len)` — not a pair, so the caller's two-variable
unpacking fails (`mainUnpack` is `none`).  The empty-pair result is
produced exactly when `test_start < lookback`, or when the guard passes
strictly and the walk-forward loop records no step (`N ≤ test_start + 1`,
i.e. a test size of at most 1). -/
theorem C10_amended_boundary {P G : Type} (sqrtQ expQ : ℚ → ℚ)
    (netF : P → List ℚ → ℚ) (gradF : P → List ℚ → ℚ → G)
    (sgdEpoch : List (List ℚ) × List ℚ → P → P × ℚ) (p0 : P)
    (logs prices : ℕ → ℚ) (N T lookback pred_len epochs : ℕ) :
    (engineTs N T = (lookback : ℤ) →
      rolling_forecast_ffnn sqrtQ expQ netF gradF sgdEpoch p0 logs prices
          N T lookback pred_len epochs = .zeros pred_len ∧
      mainUnpack (rolling_forecast_ffnn sqrtQ expQ netF gradF sgdEpoch p0
          logs prices N T lookback pred_len epochs) = none) ∧
    (rolling_forecast_ffnn sqrtQ expQ netF gradF sgdEpoch p0 logs prices
          N T lookback 1 epochs = .pair [] []
      ↔ engineTs N T < (lookback : ℤ)
        ∨ ((lookback : ℤ) < engineTs N T ∧ (N : ℤ) ≤ engineTs N T + 1)) := by
  constructor
  · intro h
    have hz := rolling_zeros_branch sqrtQ expQ netF gradF sgdEpoch p0 logs prices
      N T lookback pred_len epochs (by omega) (by omega)
    exact ⟨hz, by rw [hz]; rfl⟩
  · rcases lt_trichotomy (engineTs N T) (lookback : ℤ) with h | h | h
    · rw [rolling_guard_branch sqrtQ expQ netF gradF sgdEpoch p0 logs prices
        N T lookback 1 epochs h]
      simp [h]
    · rw [rolling_zeros_branch sqrtQ expQ netF gradF sgdEpoch p0 logs prices
        N T lookback 1 epochs (by omega) (by omega)]
      constructor
      · intro hc
        exact RollResult.noConfusion hc
      · intro hc
        omega
    · rw [rolling_main_branch sqrtQ expQ netF gradF sgdEpoch p0 logs prices
        N T lookback 1 epochs h]
      have htsZ : ((engineTs N T).toNat : ℤ) = engineTs N T := by omega
      rw [RollResult.pair.injEq, filterMap_record_empty,
        filterMap_record_empty]
      omega

/-- Witness for C10: at `N = 3, T = 1, lookback = 2` (so
`test_start = lookback = 2`) the engine returns `np.zeros(1)` and the
caller's unpacking fails; at `N = 4, T = 1, lookback = 2` the empty-pair
characterization produces the empty pair with `test_start > lookback`. -/
theorem C10_witness :
    (rolling_forecast_ffnn (P := Unit) (G := Unit) id id (fun _ _ => 0)
        (fun _ _ _ => ()) (fun _ p => (p, 0)) () (fun _ => 0) (fun _ => 1)
        3 1 2 1 5 = .zeros 1 ∧
      mainUnpack (rolling_forecast_ffnn (P := Unit) (G := Unit) id id
        (fun _ _ => 0) (fun _ _ _ => ()) (fun _ p => (p, 0)) () (fun _ => 0)
        (fun _ => 1) 3 1 2 1 5) = none) ∧
    rolling_forecast_ffnn (P := Unit) (G := Unit) id id (fun _ _ => 0)
        (fun _ _ _ => ()) (fun _ p => (p, 0)) () (fun _ => 0) (fun _ => 1)
        4 1 2 1 5 = .pair [] [] :=
  ⟨(C10_amended_boundary id id (fun _ _ => 0) (fun _ _ _ => ())
      (fun _ p => (p, 0)) () (fun _ => 0) (fun _ => 1) 3 1 2 1 5).1 (by decide),
   (C10_amended_boundary id id (fun _ _ => 0) (fun _ _ _ => ())
      (fun _ p => (p, 0)) () (fun _ => 0) (fun _ => 1) 4 1 2 1 5).2.mpr
      (Or.inr ⟨by decide, by decide⟩)⟩

/-- When the loop range ends exactly at `N` (i.e. `s + n = N`), every
index but the last has a successor below `N`, so the record `filterMap`
is the plain map over the range without its last index. -/
theorem filterMap_record_init {α : Type} (f : ℕ → α) (N s n : ℕ)
    (h : s + n = N) :
    ((List.range' s n).filterMap fun i => if i + 1 < N then some (f i) else none)
      = (List.range' s (n - 1)).map f := by
  cases n with
  | zero => simp
  | succ m =>
      rw [show m + 1 - 1 = m from rfl]
      rw [List.range'_concat, List.filterMap_append]
      have h1 : ((List.range' s m).filterMap
          fun i => if i + 1 < N then some (f i) else none)
          = (List.range' s m).filterMap fun i => some (f i) := by
        apply List.filterMap_congr
        intro i hi
        rw [List.mem_range'_1] at hi
        rw [if_pos (by omega)]
      rw [h1]
      have h2 : ((([s + 1 * m] : List ℕ)).filterMap
          fun i => if i + 1 < N then some (f i) else none) = [] := by
        simp only [List.filterMap_cons, List.filterMap_nil]
        rw [if_neg (by omega)]
      rw [h2, List.append_nil]
      rw [show (fun i => some (f i)) = some ∘ f from rfl, List.filterMap_eq_map]

/-- Element extraction from a map over a unit-step range. -/
theorem getD_map_range' {α : Type} (f : ℕ → α) (d : α) (s n k : ℕ)
    (hk : k < n) :
    ((List.range' s n).map f).getD k d = f (s + k) := by
  rw [List.getD_eq_getElem _ _ (by simpa using hk)]
  simp

/-- C3: with `test_start ≥ lookback + 1` and a test size `T ≥ 1` the
engine returns the pair of arrays in closed form: both have length
`T - 1 = N - test_start - 1`, the k-th true value is
`price[test_start + k + 1]`, and the k-th predicted value is
`price[test_start + k]` times `exp` of the inverse-standardized network
output at step `test_start + k` (computed from the phase-1 parameters and
the phase-1 standardization — the loop never changes either). -/
theorem C3_walk_forward_output {P G : Type} (sqrtQ expQ : ℚ → ℚ)
    (netF : P → List ℚ → ℚ) (gradF : P → List ℚ → ℚ → G)
    (sgdEpoch : List (List ℚ) × List ℚ → P → P × ℚ) (p0 : P)
    (logs prices : ℕ → ℚ) (N T lookback epochs : ℕ)
    (h : (lookback : ℤ) + 1 ≤ engineTs N T) (hT : 1 ≤ T) :
    rolling_forecast_ffnn sqrtQ expQ netF gradF sgdEpoch p0 logs prices
        N T lookback 1 epochs
      = .pair
          ((List.range' (engineTs N T).toNat (T - 1)).map fun i => prices (i + 1))
          ((List.range' (engineTs N T).toNat (T - 1)).map fun i =>
            prices i * expQ (scInverse (engineScaler sqrtQ logs (engineTs N T).toNat)
              (netF (enginePhase1 sqrtQ sgdEpoch p0 epochs logs (engineTs N T).toNat lookback)
                ((rollWindow logs lookback i).map
                  (scTransform (engineScaler sqrtQ logs (engineTs N T).toNat)))))) ∧
    ((List.range' (engineTs N T).toNat (T - 1)).map fun i => prices (i + 1)).length
      = T - 1 ∧
    ((List.range' (engineTs N T).toNat (T - 1)).map fun i =>
            prices i * expQ (scInverse (engineScaler sqrtQ logs (engineTs N T).toNat)
              (netF (enginePhase1 sqrtQ sgdEpoch p0 epochs logs (engineTs N T).toNat lookback)
                ((rollWindow logs lookback i).map
                  (scTransform (engineScaler sqrtQ logs (engineTs N T).toNat)))))).length
      = T - 1 ∧
    N - (engineTs N T).toNat - 1 = T - 1 ∧
    (∀ k, k < T - 1 →
      (((List.range' (engineTs N T).toNat (T - 1)).map fun i => prices (i + 1)).getD k 0
        = prices ((engineTs N T).toNat + k + 1)) ∧
      (((List.range' (engineTs N T).toNat (T - 1)).map fun i =>
            prices i * expQ (scInverse (engineScaler sqrtQ logs (engineTs N T).toNat)
              (netF (enginePhase1 sqrtQ sgdEpoch p0 epochs logs (engineTs N T).toNat lookback)
                ((rollWindow logs lookback i).map
                  (scTransform (engineScaler sqrtQ logs (engineTs N T).toNat)))))).getD k 0
        = prices ((engineTs N T).toNat + k)
            * expQ (scInverse (engineScaler sqrtQ logs (engineTs N T).toNat)
              (netF (enginePhase1 sqrtQ sgdEpoch p0 epochs logs (engineTs N T).toNat lookback)
                ((rollWindow logs lookback ((engineTs N T).toNat + k)).map
                  (scTransform (engineScaler sqrtQ logs (engineTs N T).toNat))))))) := by
  have he : engineTs N T = (N : ℤ) - (T : ℤ) := rfl
  have hlt : (lookback : ℤ) < engineTs N T := by omega
  have hcount : N + 1 - 1 - (engineTs N T).toNat = T := by omega
  have hlast : (engineTs N T).toNat + T = N := by omega
  refine ⟨?_, by simp, by simp, by omega, ?_⟩
  · rw [rolling_main_branch sqrtQ expQ netF gradF sgdEpoch p0 logs prices
      N T lookback 1 epochs hlt]
    rw [hcount, filterMap_record_init _ N _ T hlast,
      filterMap_record_init _ N _ T hlast]
  · intro k hk
    exact ⟨getD_map_range' _ 0 _ _ k hk, getD_map_range' _ 0 _ _ k hk⟩

/-- Witness for C3 at `N = 5, T = 3, lookback = 1` (`test_start = 2`):
the two returned arrays in closed form, their lengths `T - 1 = 2`, and
the `k = 0` record equations. -/
theorem C3_witness :
    (rolling_forecast_ffnn (P := Unit) (G := Unit) id id (fun _ _ => 0)
        (fun _ _ _ => ()) (fun _ p => (p, 0)) () (fun _ => 0)
        (fun n => (n : ℚ)) 5 3 1 1 5
      = .pair
          ((List.range' (engineTs 5 3).toNat (3 - 1)).map fun i => ((i + 1 : ℕ) : ℚ))
          ((List.range' (engineTs 5 3).toNat (3 - 1)).map fun i : ℕ =>
            (i : ℚ) * id (scInverse (engineScaler id (fun _ => 0) (engineTs 5 3).toNat)
              ((fun _ _ => (0 : ℚ)) (enginePhase1 id (fun _ p => (p, 0)) () 5 (fun _ => 0) (engineTs 5 3).toNat 1)
                ((rollWindow (fun _ => 0) 1 i).map
                  (scTransform (engineScaler id (fun _ => 0) (engineTs 5 3).toNat))))))) ∧
    ((List.range' (engineTs 5 3).toNat (3 - 1)).map fun i => ((i + 1 : ℕ) : ℚ)).length
      = 3 - 1 ∧
    (((List.range' (engineTs 5 3).toNat (3 - 1)).map fun i => ((i + 1 : ℕ) : ℚ)).getD 0 0
      = (((engineTs 5 3).toNat + 0 + 1 : ℕ) : ℚ)) := by
  have h := C3_walk_forward_output (P := Unit) (G := Unit) id id (fun _ _ => 0)
    (fun _ _ _ => ()) (fun _ p => (p, 0)) () (fun _ => 0) (fun n => (n : ℚ))
    5 3 1 5 (by decide) (by decide)
  exact ⟨h.1, h.2.1, (h.2.2.2.2 0 (by decide)).1⟩

/-- The phase-1 standardization transform depends only on the log-returns
at indices `[0, ts)`. -/
theorem engineScaler_congr (sqrtQ : ℚ → ℚ) (logs1 logs2 : ℕ → ℚ) (ts : ℕ)
    (h : ∀ j, j < ts → logs1 j = logs2 j) :
    engineScaler sqrtQ logs1 ts = engineScaler sqrtQ logs2 ts := by
  unfold engineScaler
  congr 1
  apply List.map_congr_left
  intro j hj
  exact h j (List.mem_range.mp hj)

/-- The scaled training rows depend only on the log-returns at `[0, ts)`. -/
theorem scaledTrainRows_congr (sqrtQ : ℚ → ℚ) (logs1 logs2 : ℕ → ℚ) (ts : ℕ)
    (h : ∀ j, j < ts → logs1 j = logs2 j) :
    scaledTrainRows sqrtQ logs1 ts = scaledTrainRows sqrtQ logs2 ts := by
  unfold scaledTrainRows
  rw [engineScaler_congr sqrtQ logs1 logs2 ts h]
  apply List.map_congr_left
  intro j hj
  rw [h j (List.mem_range.mp hj)]

/-- The phase-1 parameters depend only on the log-returns at `[0, ts)`. -/
theorem enginePhase1_congr {P : Type} (sqrtQ : ℚ → ℚ)
    (sgdEpoch : List (List ℚ) × List ℚ → P → P × ℚ) (p0 : P) (epochs : ℕ)
    (logs1 logs2 : ℕ → ℚ) (ts lookback : ℕ)
    (h : ∀ j, j < ts → logs1 j = logs2 j) :
    enginePhase1 sqrtQ sgdEpoch p0 epochs logs1 ts lookback
      = enginePhase1 sqrtQ sgdEpoch p0 epochs logs2 ts lookback := by
  unfold enginePhase1
  rw [scaledTrainRows_congr sqrtQ logs1 logs2 ts h]

/-- Prefix dependence of the walk-forward loop: the state after the first
`m` iterations (indices `ts, ..., ts + m - 1`) is a function of the
log-returns at indices below `ts + m` only. -/
theorem engineLoopState_congr {P G : Type} (sqrtQ expQ : ℚ → ℚ)
    (netF : P → List ℚ → ℚ) (gradF : P → List ℚ → ℚ → G)
    (sgdEpoch : List (List ℚ) × List ℚ → P → P × ℚ) (p0 : P)
    (prices : ℕ → ℚ) (N lookback ts epochs : ℕ) (logs1 logs2 : ℕ → ℚ)
    (hLts : lookback ≤ ts) :
    ∀ m, (∀ j, j < ts + m → logs1 j = logs2 j) →
      engineLoopState sqrtQ expQ netF gradF sgdEpoch p0 logs1 prices
          N lookback ts epochs m
        = engineLoopState sqrtQ expQ netF gradF sgdEpoch p0 logs2 prices
            N lookback ts epochs m := by
  intro m
  induction m with
  | zero =>
      intro hm
      unfold engineLoopState
      rw [enginePhase1_congr sqrtQ sgdEpoch p0 epochs logs1 logs2 ts lookback
        (fun j hj => hm j (by omega)),
        engineScaler_congr sqrtQ logs1 logs2 ts (fun j hj => hm j (by omega))]
      rfl
  | succ m ih =>
      intro hm
      have hm' : ∀ j, j < ts + m → logs1 j = logs2 j := fun j hj => hm j (by omega)
      have hsc := engineScaler_congr sqrtQ logs1 logs2 ts
        (fun j hj => hm j (by omega))
      have hwin : rollWindow logs1 lookback (ts + m)
          = rollWindow logs2 lookback (ts + m) := by
        unfold rollWindow
        apply List.map_congr_left
        intro j hj
        have hj' : j < lookback := List.mem_range.mp hj
        exact hm _ (by omega)
      have hlabel : logs1 (ts + m) = logs2 (ts + m) := hm _ (by omega)
      have hstep := ih hm'
      unfold engineLoopState at hstep ⊢
      rw [List.range'_concat, List.foldl_append, List.foldl_append]
      simp only [List.foldl_cons, List.foldl_nil, one_mul]
      rw [enginePhase1_congr sqrtQ sgdEpoch p0 epochs logs1 logs2 ts lookback
        (fun j hj => hm j (by omega)), hsc] at hstep ⊢
      rw [hstep]
      unfold rollIter
      rw [hwin, hlabel]

/-- C4: the causality invariant of the walk-forward loop.  At iteration
`i` (with `lookback ≤ ts ≤ i`): every index the input window reads lies
in `[i - lookback, i)`; the window is exactly the log-returns at those
indices; the incremental-update block labels it with the standardized
log-return at index `i` itself (written to the gradient buffer); the
standardization transform is the one fit on indices `[0, ts)` — equal
log-return prefixes give equal transforms, so it is never refit from loop
data; and two log-return series agreeing up to index `i` give identical
loop states (phase-1 parameters, gradient buffer, records and the
prediction made at every iteration up to `i`) — no log-return beyond `i`
enters predict or update. -/
theorem C4_causality_invariant {P G : Type} (sqrtQ expQ : ℚ → ℚ)
    (netF : P → List ℚ → ℚ) (gradF : P → List ℚ → ℚ → G)
    (sgdEpoch : List (List ℚ) × List ℚ → P → P × ℚ) (p0 : P)
    (prices : ℕ → ℚ) (N lookback ts i epochs : ℕ) (logs1 logs2 : ℕ → ℚ)
    (hLts : lookback ≤ ts) (htsi : ts ≤ i)
    (hagree : ∀ j, j ≤ i → logs1 j = logs2 j) :
    (∀ j, j < lookback → i - lookback ≤ i - lookback + j ∧ i - lookback + j < i) ∧
    (rollWindow logs1 lookback i
      = (List.range lookback).map fun j => logs1 (i - lookback + j)) ∧
    (∀ st : LoopState P G, i + 1 < N →
      (rollIter expQ netF gradF (engineScaler sqrtQ logs1 ts) logs1 prices
          N lookback st i).gradBuf
        = some (gradF st.params
            ((rollWindow logs1 lookback i).map
              (scTransform (engineScaler sqrtQ logs1 ts)))
            (scTransform (engineScaler sqrtQ logs1 ts) (logs1 i)))) ∧
    (engineScaler sqrtQ logs1 ts = engineScaler sqrtQ logs2 ts) ∧
    (engineLoopState sqrtQ expQ netF gradF sgdEpoch p0 logs1 prices
        N lookback ts epochs (i + 1 - ts)
      = engineLoopState sqrtQ expQ netF gradF sgdEpoch p0 logs2 prices
          N lookback ts epochs (i + 1 - ts)) := by
  refine ⟨fun j hj => by omega, rfl, ?_, ?_, ?_⟩
  · intro st hN
    unfold rollIter
    simp [hN]
  · exact engineScaler_congr sqrtQ logs1 logs2 ts
      (fun j hj => hagree j (by omega))
  · exact engineLoopState_congr sqrtQ expQ netF gradF sgdEpoch p0 prices
      N lookback ts epochs logs1 logs2 hLts (i + 1 - ts)
      (fun j hj => hagree j (by omega))

/-- Witness for C4 at `lookback = 1, ts = 1, i = 1, N = 3` with two
log-return series agreeing on indices `0` and `1` but differing beyond:
the window-index bounds at `j = 0`, the gradient-buffer label equation at
a concrete state, the equality of the two fitted transforms, and the
equality of the two loop states. -/
theorem C4_witness :
    ((1 : ℕ) - 1 ≤ 1 - 1 + 0 ∧ 1 - 1 + 0 < 1) ∧
    ((rollIter (P := Unit) (G := ℚ) id (fun _ _ => 0) (fun _ _ y => y)
        (engineScaler id (fun _ => 0) 1) (fun _ => 0) (fun _ => 1) 3 1
        ⟨(), none, [], []⟩ 1).gradBuf
      = some ((fun (_ : Unit) (_ : List ℚ) (y : ℚ) => y) ()
          ((rollWindow (fun _ => 0) 1 1).map
            (scTransform (engineScaler id (fun _ => 0) 1)))
          (scTransform (engineScaler id (fun _ => 0) 1) ((fun _ => (0 : ℚ)) 1)))) ∧
    (engineScaler id (fun _ => 0) 1
      = engineScaler id (fun n => if n ≤ 1 then 0 else 5) 1) ∧
    (engineLoopState (P := Unit) (G := ℚ) id id (fun _ _ => 0) (fun _ _ y => y)
        (fun _ p => (p, 0)) () (fun _ => 0) (fun _ => 1) 3 1 1 5 (1 + 1 - 1)
      = engineLoopState (P := Unit) (G := ℚ) id id (fun _ _ => 0) (fun _ _ y => y)
        (fun _ p => (p, 0)) () (fun n => if n ≤ 1 then 0 else 5) (fun _ => 1)
        3 1 1 5 (1 + 1 - 1)) := by
  have h := C4_causality_invariant (P := Unit) (G := ℚ) id id (fun _ _ => 0)
    (fun _ _ y => y) (fun _ p => (p, 0)) () (fun _ => 1) 3 1 1 1 5
    (fun _ => 0) (fun n => if n ≤ 1 then 0 else 5) (by decide) (by decide)
    (fun j hj => by simp [hj])
  exact ⟨h.1 0 (by decide), h.2.2.1 ⟨(), none, [], []⟩ (by decide),
    h.2.2.2.1, h.2.2.2.2⟩

/-- Behaviour of `finPart` on a cons cell headed by a finite value. -/
theorem finPart_cons_fin (q : ℚ) (t : List PyFloat) :
    finPart (.fin q :: t) = q :: finPart t := rfl

/-- On an all-finite list the finite part has the same length. -/
theorem finPart_length (t : List PyFloat) (h : ∀ x ∈ t, x.isFinite = true) :
    (finPart t).length = t.length := by
  induction t with
  | nil => rfl
  | cons x t ih =>
      have ht : ∀ y ∈ t, y.isFinite = true :=
        fun y hy => h y (List.mem_cons_of_mem _ hy)
      cases x with
      | fin q => rw [finPart_cons_fin, List.length_cons, List.length_cons, ih ht]
      | pinf => exact absurd (h _ (List.mem_cons_self _ t)) (by simp [PyFloat.isFinite])
      | ninf => exact absurd (h _ (List.mem_cons_self _ t)) (by simp [PyFloat.isFinite])
      | nan => exact absurd (h _ (List.mem_cons_self _ t)) (by simp [PyFloat.isFinite])

/-- Folding IEEE addition over an all-finite list from a finite seed is
the rational sum. -/
theorem foldl_add_fin (t : List PyFloat) (h : ∀ x ∈ t, x.isFinite = true) :
    ∀ q : ℚ, t.foldl PyFloat.add (.fin q) = .fin (q + (finPart t).sum) := by
  induction t with
  | nil => intro q; simp [finPart]
  | cons x t ih =>
      intro q
      cases x with
      | fin a =>
          have ht : ∀ y ∈ t, y.isFinite = true :=
            fun y hy => h y (List.mem_cons_of_mem _ hy)
          simp only [List.foldl_cons, PyFloat.add]
          rw [ih ht (q + a), finPart_cons_fin, List.sum_cons]
          congr 1
          ring
      | pinf => exact absurd (h _ (List.mem_cons_self _ t)) (by simp [PyFloat.isFinite])
      | ninf => exact absurd (h _ (List.mem_cons_self _ t)) (by simp [PyFloat.isFinite])
      | nan => exact absurd (h _ (List.mem_cons_self _ t)) (by simp [PyFloat.isFinite])

/-- Value of `np.sum` of an all-finite array is the rational sum. -/
theorem pySum_fin (t : List PyFloat) (h : ∀ x ∈ t, x.isFinite = true) :
    pySum t = .fin (finPart t).sum := by
  unfold pySum
  rw [foldl_add_fin t h 0, zero_add]

/-- Value of `np.mean` of a nonempty all-finite array is the rational mean. -/
theorem pyMean_fin (t : List PyFloat) (hne : t ≠ [])
    (h : ∀ x ∈ t, x.isFinite = true) : pyMean t = .fin (qMean t) := by
  unfold pyMean qMean
  rw [pySum_fin t h, finPart_length t h]
  have hlen : ((t.length : ℚ)) ≠ 0 := by
    simp [List.length_eq_zero]
    exact hne
  simp [PyFloat.div, hlen]

/-- Rewriting `if a < b then b else a` as the lattice maximum. -/
theorem ite_lt_max (a b : ℚ) : (if a < b then b else a) = max a b := by
  rcases le_or_lt b a with h | h
  · rw [if_neg (not_lt.mpr h), max_eq_left h]
  · rw [if_pos h, max_eq_right h.le]

/-- Rewriting `if b < a then b else a` as the lattice minimum. -/
theorem ite_lt_min (a b : ℚ) : (if b < a then b else a) = min a b := by
  rcases le_or_lt a b with h | h
  · rw [if_neg (not_lt.mpr h), min_eq_left h]
  · rw [if_pos h, min_eq_right h.le]

/-- Folding the `np.max` reduction over an all-finite list from a finite
seed is the rational maximum fold. -/
theorem foldl_max2_fin (t : List PyFloat) (h : ∀ x ∈ t, x.isFinite = true) :
    ∀ q : ℚ, t.foldl PyFloat.max2 (.fin q) = .fin ((finPart t).foldl max q) := by
  induction t with
  | nil => intro q; simp [finPart]
  | cons x t ih =>
      intro q
      cases x with
      | fin a =>
          have ht : ∀ y ∈ t, y.isFinite = true :=
            fun y hy => h y (List.mem_cons_of_mem _ hy)
          simp only [List.foldl_cons]
          have hm : PyFloat.max2 (.fin q) (.fin a) = .fin (max q a) := by
            simp only [PyFloat.max2, PyFloat.lt]
            rw [if_neg (by simp), ← ite_lt_max q a]
            by_cases hqa : q < a
            · rw [if_pos (by simpa using hqa), if_pos hqa]
            · rw [if_neg (by simpa using hqa), if_neg hqa]
          rw [hm, ih ht (max q a), finPart_cons_fin, List.foldl_cons]
      | pinf => exact absurd (h _ (List.mem_cons_self _ t)) (by simp [PyFloat.isFinite])
      | ninf => exact absurd (h _ (List.mem_cons_self _ t)) (by simp [PyFloat.isFinite])
      | nan => exact absurd (h _ (List.mem_cons_self _ t)) (by simp [PyFloat.isFinite])

/-- Folding the `np.min` reduction over an all-finite list from a finite
seed is the rational minimum fold. -/
theorem foldl_min2_fin (t : List PyFloat) (h : ∀ x ∈ t, x.isFinite = true) :
    ∀ q : ℚ, t.foldl PyFloat.min2 (.fin q) = .fin ((finPart t).foldl min q) := by
  induction t with
  | nil => intro q; simp [finPart]
  | cons x t ih =>
      intro q
      cases x with
      | fin a =>
          have ht : ∀ y ∈ t, y.isFinite = true :=
            fun y hy => h y (List.mem_cons_of_mem _ hy)
          simp only [List.foldl_cons]
          have hm : PyFloat.min2 (.fin q) (.fin a) = .fin (min q a) := by
            simp only [PyFloat.min2, PyFloat.lt]
            rw [if_neg (by simp), ← ite_lt_min q a]
            by_cases hqa : a < q
            · rw [if_pos (by simpa using hqa), if_pos hqa]
            · rw [if_neg (by simpa using hqa), if_neg hqa]
          rw [hm, ih ht (min q a), finPart_cons_fin, List.foldl_cons]
      | pinf => exact absurd (h _ (List.mem_cons_self _ t)) (by simp [PyFloat.isFinite])
      | ninf => exact absurd (h _ (List.mem_cons_self _ t)) (by simp [PyFloat.isFinite])
      | nan => exact absurd (h _ (List.mem_cons_self _ t)) (by simp [PyFloat.isFinite])

/-- Value of `np.max` of a nonempty all-finite array is the rational maximum. -/
theorem pyMax_fin (t : List PyFloat) (hne : t ≠ [])
    (h : ∀ x ∈ t, x.isFinite = true) : pyMax t = .fin (qMax t) := by
  cases t with
  | nil => exact absurd rfl hne
  | cons x t =>
      cases x with
      | fin a =>
          rw [show pyMax (PyFloat.fin a :: t) = t.foldl PyFloat.max2 (.fin a) from rfl,
            show qMax (PyFloat.fin a :: t) = (finPart t).foldl max a from rfl]
          exact foldl_max2_fin t (fun y hy => h y (List.mem_cons_of_mem _ hy)) a
      | pinf => exact absurd (h _ (List.mem_cons_self _ t)) (by simp [PyFloat.isFinite])
      | ninf => exact absurd (h _ (List.mem_cons_self _ t)) (by simp [PyFloat.isFinite])
      | nan => exact absurd (h _ (List.mem_cons_self _ t)) (by simp [PyFloat.isFinite])

/-- Value of `np.min` of a nonempty all-finite array is the rational minimum. -/
theorem pyMin_fin (t : List PyFloat) (hne : t ≠ [])
    (h : ∀ x ∈ t, x.isFinite = true) : pyMin t = .fin (qMin t) := by
  cases t with
  | nil => exact absurd rfl hne
  | cons x t =>
      cases x with
      | fin a =>
          rw [show pyMin (PyFloat.fin a :: t) = t.foldl PyFloat.min2 (.fin a) from rfl,
            show qMin (PyFloat.fin a :: t) = (finPart t).foldl min a from rfl]
          exact foldl_min2_fin t (fun y hy => h y (List.mem_cons_of_mem _ hy)) a
      | pinf => exact absurd (h _ (List.mem_cons_self _ t)) (by simp [PyFloat.isFinite])
      | ninf => exact absurd (h _ (List.mem_cons_self _ t)) (by simp [PyFloat.isFinite])
      | nan => exact absurd (h _ (List.mem_cons_self _ t)) (by simp [PyFloat.isFinite])

/-- C7: on equal-length inputs with all true values finite and some
non-finite prediction, the evaluator substitutes — pointwise — the true
mean for NaN, twice the true maximum (or 1e12 when that maximum is not
positive) for +inf, twice the true minimum (or -1e12 when that minimum is
not negative) for -inf, leaves finite predictions unchanged, and then
computes the metrics by the standard-formula path on the substituted
predictions. -/
theorem C7_nonfinite_substitution (sqrtQ : ℚ → ℚ) (t p : List PyFloat)
    (hlen : t.length = p.length)
    (hfin : t.all PyFloat.isFinite = true)
    (hnf : p.all PyFloat.isFinite = false) :
    evaluate_model sqrtQ t p = stdMetrics sqrtQ t (substPreds t p) ∧
    (∀ k, k < p.length →
      (substPreds t p).getD k .nan =
        (match p.getD k .nan with
         | .nan => .fin (qMean t)
         | .pinf => if 0 < qMax t then .fin (qMax t * 2) else .fin 1000000000000
         | .ninf => if qMin t < 0 then .fin (qMin t * 2) else .fin (-1000000000000)
         | .fin q => .fin q)) := by
  have hpne : p ≠ [] := by
    intro hp
    rw [hp] at hnf
    simp at hnf
  have hplen : 0 < p.length := List.length_pos.mpr hpne
  have htne : t ≠ [] := by
    intro ht
    rw [ht] at hlen
    simp at hlen
    omega
  have htfin : ∀ x ∈ t, x.isFinite = true := List.all_eq_true.mp hfin
  have hcond2 : (t.all PyFloat.isFinite && !t.isEmpty) = true := by
    rw [hfin]
    simp [htne]
  constructor
  · unfold evaluate_model
    have hcond : ¬(t.length = 0 ∨ p.length = 0 ∨ t.length ≠ p.length) := by
      push_neg
      exact ⟨by omega, by omega, hlen⟩
    rw [if_neg hcond]
    simp [hnf]
  · intro k hk
    have hkm : k < (substPreds t p).length := by
      simpa [substPreds] using hk
    rw [List.getD_eq_getElem _ _ hkm, List.getD_eq_getElem _ _ hk]
    simp only [substPreds, hcond2, if_true, List.getElem_map]
    cases hpk : p[k] with
    | nan => simpa using pyMean_fin t htne htfin
    | fin q => rfl
    | pinf =>
        dsimp only
        rw [pyMax_fin t htne htfin]
        simp only [PyFloat.lt, PyFloat.mul]
        by_cases h0 : 0 < qMax t
        · rw [if_pos (by simpa using h0), if_pos h0]
        · rw [if_neg (by simpa using h0), if_neg h0]
    | ninf =>
        dsimp only
        rw [pyMin_fin t htne htfin]
        simp only [PyFloat.lt, PyFloat.mul]
        by_cases h0 : qMin t < 0
        · rw [if_pos (by simpa using h0), if_pos h0]
        · rw [if_neg (by simpa using h0), if_neg h0]

/-- Witness for C7 at `t = [1, 3]`, `p = [NaN, +inf]`: the evaluator
routes through the substitution and the standard formulas, the NaN entry
becomes the true mean and the +inf entry becomes twice the true
maximum. -/
theorem C7_witness :
    evaluate_model id [PyFloat.fin 1, PyFloat.fin 3] [PyFloat.nan, PyFloat.pinf]
      = stdMetrics id [PyFloat.fin 1, PyFloat.fin 3]
          (substPreds [PyFloat.fin 1, PyFloat.fin 3] [PyFloat.nan, PyFloat.pinf]) ∧
    (substPreds [PyFloat.fin 1, PyFloat.fin 3] [PyFloat.nan, PyFloat.pinf]).getD 0 .nan
      = .fin (qMean [PyFloat.fin 1, PyFloat.fin 3]) ∧
    (substPreds [PyFloat.fin 1, PyFloat.fin 3] [PyFloat.nan, PyFloat.pinf]).getD 1 .nan
      = (if 0 < qMax [PyFloat.fin 1, PyFloat.fin 3]
         then .fin (qMax [PyFloat.fin 1, PyFloat.fin 3] * 2)
         else .fin 1000000000000) := by
  have h := C7_nonfinite_substitution id [PyFloat.fin 1, PyFloat.fin 3]
    [PyFloat.nan, PyFloat.pinf] rfl rfl rfl
  exact ⟨h.1, h.2 0 (by decide), h.2 1 (by decide)⟩

/-- Setting an entry of the right list of a zip of equal-length lists sets
the corresponding pair. -/
theorem zip_set_right {α β : Type} (d : α) :
    ∀ (t : List α) (p : List β) (k : ℕ) (v : β), k < t.length → k < p.length →
      t.zip (p.set k v) = (t.zip p).set k (t.getD k d, v) := by
  intro t
  induction t with
  | nil => intro p k v hk _; simp at hk
  | cons a t ih =>
      intro p k v hk hk2
      cases p with
      | nil => simp at hk2
      | cons b p =>
          cases k with
          | zero => simp
          | succ k =>
              simp only [List.set_cons_succ, List.zip_cons_cons, List.getD_cons_succ]
              rw [ih p k v (by simpa using hk) (by simpa using hk2)]

/-- Replacing one element by another that also fails the predicate leaves
a filter unchanged. -/
theorem filter_set_not {α : Type} (pr : α → Bool) :
    ∀ (l : List α) (k : ℕ) (x : α), k < l.length →
      pr (l.getD k x) = false → pr x = false →
      (l.set k x).filter pr = l.filter pr := by
  intro l
  induction l with
  | nil => intro k x hk _ _; simp at hk
  | cons a l ih =>
      intro k x hk hold hnew
      cases k with
      | zero =>
          simp only [List.getD_cons_zero] at hold
          simp [List.filter_cons, hold, hnew]
      | succ k =>
          simp only [List.getD_cons_succ] at hold
          simp only [List.set_cons_succ, List.filter_cons]
          rw [ih k x (by simpa using hk) hold hnew]

/-- Setting a prediction at a position whose true value is masked out
does not change the masked pair list. -/
theorem maskedPairs_set (t p : List PyFloat) (k : ℕ) (v : PyFloat)
    (hlen : t.length = p.length) (hk : k < t.length)
    (hmask : maskB (t.getD k .nan) = false) :
    maskedPairs t (p.set k v) = maskedPairs t p := by
  unfold maskedPairs
  rw [zip_set_right PyFloat.nan t p k v hk (by omega)]
  apply filter_set_not _ _ _ _ (by simp [List.length_zip]; omega)
  · have hz : (t.zip p).getD k (t.getD k PyFloat.nan, v)
        = (t.getD k .nan, p.getD k .nan) := by
      rw [List.getD_eq_getElem _ _ (by simp [List.length_zip]; omega)]
      rw [List.getElem_zip]
      rw [List.getD_eq_getElem _ _ hk, List.getD_eq_getElem _ _ (by omega)]
    rw [hz]
    exact hmask
  · exact hmask

/-- The MAPE computation never yields NaN: its final catch maps any
non-finite intermediate value to +inf. -/
theorem computeMAPE_ne_nan (t p : List PyFloat) : computeMAPE t p ≠ .nan := by
  have hgen : ∀ m : PyFloat, (if m.isFinite then m else PyFloat.pinf) ≠ .nan := by
    intro m
    cases m <;> simp [PyFloat.isFinite]
  exact hgen _

/-- C8: (a) when at least one pair survives the mask, MAPE is computed
from the masked pairs only — changing a prediction at any position whose
true value has magnitude at most 1e-7 leaves MAPE unchanged; (b) when
every position is masked out, MAPE is exactly 0 if all predictions are
finite with magnitude at most 1e-8 (`np.allclose(pred, 0)`), and +inf
otherwise; (c) the MAPE the evaluator returns is never NaN on any
input. -/
theorem C8_mape_masking :
    (∀ (t p : List PyFloat) (k : ℕ) (v : PyFloat),
      t.length = p.length → k < t.length → maskB (t.getD k .nan) = false →
      maskedPairs t p ≠ [] →
      computeMAPE t (p.set k v) = computeMAPE t p) ∧
    (∀ t p : List PyFloat, t.length = p.length →
      (∀ x ∈ t, maskB x = false) →
      ((∀ x ∈ p, ∃ q, x = PyFloat.fin q ∧ |q| ≤ 1 / 100000000) →
        computeMAPE t p = .fin 0) ∧
      ((¬ ∀ x ∈ p, ∃ q, x = PyFloat.fin q ∧ |q| ≤ 1 / 100000000) →
        computeMAPE t p = .pinf)) ∧
    (∀ (sqrtQ : ℚ → ℚ) (t p : List PyFloat),
      (evaluate_model sqrtQ t p).mape ≠ .nan) := by
  refine ⟨?_, ?_, ?_⟩
  · intro t p k v hlen hk hmask hne
    have hmp := maskedPairs_set t p k v hlen hk hmask
    have hlen0 : ¬(maskedPairs t p).length = 0 := by
      simpa [List.length_eq_zero] using hne
    unfold computeMAPE
    rw [hmp]
    simp only [if_neg hlen0]
  · intro t p hlen hmaskall
    have hmp : maskedPairs t p = [] := by
      unfold maskedPairs
      rw [List.filter_eq_nil_iff]
      intro z hz
      simp [hmaskall _ (List.of_mem_zip hz).1]
    constructor
    · intro hz
      have hall : p.all nearZero = true := by
        rw [List.all_eq_true]
        intro x hx
        obtain ⟨q, rfl, hq⟩ := hz x hx
        simpa [nearZero] using hq
      unfold computeMAPE
      rw [hmp]
      simp only [List.length_nil, if_pos rfl, hall, if_true]
      rfl
    · intro hz
      have hall : p.all nearZero = false := by
        by_contra hba
        have hall2 : p.all nearZero = true := by
          cases h : p.all nearZero
          · exact absurd h hba
          · rfl
        apply hz
        intro x hx
        have := (List.all_eq_true.mp hall2) x hx
        cases x with
        | fin q => exact ⟨q, rfl, by simpa [nearZero] using this⟩
        | pinf => simp [nearZero] at this
        | ninf => simp [nearZero] at this
        | nan => simp [nearZero] at this
      unfold computeMAPE
      rw [hmp]
      simp only [List.length_nil, if_pos rfl, hall]
      rfl
  · intro sqrtQ t p
    unfold evaluate_model
    by_cases hdeg : t.length = 0 ∨ p.length = 0 ∨ t.length ≠ p.length
    · rw [if_pos hdeg]
      simp
    · rw [if_neg hdeg]
      exact computeMAPE_ne_nan _ _

/-- Witness for C8: changing the prediction at the masked position 1
(true value 0) leaves MAPE unchanged; MAPE is 0 on all-masked trues with
zero predictions and +inf with a nonzero prediction; and the evaluator's
MAPE at the degenerate input `([], [])` is +inf, not NaN. -/
theorem C8_witness :
    computeMAPE [PyFloat.fin 1, PyFloat.fin 0]
        ([PyFloat.fin 5, PyFloat.fin 7].set 1 PyFloat.nan)
      = computeMAPE [PyFloat.fin 1, PyFloat.fin 0] [PyFloat.fin 5, PyFloat.fin 7] ∧
    computeMAPE [PyFloat.fin 0] [PyFloat.fin 0] = .fin 0 ∧
    computeMAPE [PyFloat.fin 0] [PyFloat.fin 1] = .pinf ∧
    (evaluate_model id [] []).mape ≠ .nan := by
  have hmask0 : maskB (PyFloat.fin 0) = false := by
    simp [maskB, PyFloat.abs, PyFloat.lt]
  have hmask1 : maskB (PyFloat.fin 1) = true := by
    simp only [maskB, PyFloat.abs, PyFloat.lt]
    rw [decide_eq_true_eq]
    norm_num
  refine ⟨?_, ?_, ?_, C8_mape_masking.2.2 id [] []⟩
  · refine C8_mape_masking.1 [PyFloat.fin 1, PyFloat.fin 0]
      [PyFloat.fin 5, PyFloat.fin 7] 1 PyFloat.nan rfl (by decide) ?_ ?_
    · simpa using hmask0
    · simp [maskedPairs, List.filter_cons, hmask1]
  · refine (C8_mape_masking.2.1 [PyFloat.fin 0] [PyFloat.fin 0] rfl ?_).1 ?_
    · intro x hx
      simp at hx
      rw [hx]
      exact hmask0
    · intro x hx
      simp at hx
      exact ⟨0, hx, by norm_num⟩
  · refine (C8_mape_masking.2.1 [PyFloat.fin 0] [PyFloat.fin 1] rfl ?_).2 ?_
    · intro x hx
      simp at hx
      rw [hx]
      exact hmask0
    · intro hz
      obtain ⟨q, hq, hb⟩ := hz (PyFloat.fin 1) (by simp)
      rw [show q = 1 from by injection hq.symm] at hb
      norm_num at hb

/-- One epoch of the fit loop under a constant loss of 1, from a state
whose trackers already hold 1: the loss improves nothing, so the best
snapshot is kept, the patience counter advances (stopping at 20) and the
scheduler bookkeeping advances. -/
theorem fitStep_plateau {P : Type} (f : ℚ → ℚ → P → P × ℚ) (st : FitState P)
    (hf : ∀ c lr p, (f c lr p).2 = 1)
    (hstop : st.stopped = false)
    (hbest : st.bestLoss = some 1)
    (hsched : st.schedBest = some 1) :
    fitStep f st =
      ⟨(f 1 st.lr st.params).1, (plateauNext st.lr (st.schedBad + 1)).1,
       some 1, st.patienceCtr + 1, st.bestState, some 1,
       (plateauNext st.lr (st.schedBad + 1)).2,
       decide (20 ≤ st.patienceCtr + 1), st.epochsRun + 1⟩ := by
  have himp : schedImproves (f 1 st.lr st.params).2 st.schedBest = false := by
    rw [hsched, hf]
    simp only [schedImproves, decide_eq_false_iff_not]
    norm_num
  have himp2 : decide ((f 1 st.lr st.params).2 < 1) = false := by
    rw [hf]
    simp only [decide_eq_false_iff_not]
    norm_num
  unfold fitStep
  rw [hstop]
  simp only [Bool.false_eq_true, if_false, himp, hbest]
  simp only [himp2, Bool.false_eq_true, if_false, hsched]

/-- The first epoch of the fit loop under constant loss 1: the initial
`inf` trackers improve, a best snapshot is taken, counters reset. -/
theorem fitStep_first {P : Type} (f : ℚ → ℚ → P → P × ℚ) (p0 : P) (lr0 : ℚ)
    (hf : ∀ c lr p, (f c lr p).2 = 1) :
    fitStep f (fitInit p0 lr0) =
      ⟨(f 1 lr0 p0).1, lr0, some 1, 0, some (f 1 lr0 p0).1, some 1, 0, false, 1⟩ := by
  unfold fitStep fitInit
  simp only [Bool.false_eq_true, if_false, schedImproves, if_true, plateauNext]
  rw [if_neg (by omega)]
  simp only [hf, if_true]

/-- Trajectory of the fit loop under constant loss 1 (never improving
after the first epoch): for `1 ≤ n ≤ 21` the state after `n` epochs keeps
the epoch-1 best snapshot, counts `n - 1` bad epochs, halves the learning
rate once the scheduler sees more than 10 bad epochs (at epoch 12), and
raises the stop flag exactly at epoch 21 (20 consecutive non-improving
epochs). -/
theorem fitTraj {P : Type} (f : ℚ → ℚ → P → P × ℚ) (p0 : P) (lr0 : ℚ)
    (hf : ∀ c lr p, (f c lr p).2 = 1)
    (hlr : 1 / 100000000 < lr0 - lr0 * (1 / 2)) :
    ∀ n, 1 ≤ n → n ≤ 21 →
      ((fitStep f)^[n] (fitInit p0 lr0)).epochsRun = n ∧
      ((fitStep f)^[n] (fitInit p0 lr0)).patienceCtr = n - 1 ∧
      ((fitStep f)^[n] (fitInit p0 lr0)).bestLoss = some 1 ∧
      ((fitStep f)^[n] (fitInit p0 lr0)).schedBest = some 1 ∧
      ((fitStep f)^[n] (fitInit p0 lr0)).bestState = some (f 1 lr0 p0).1 ∧
      ((fitStep f)^[n] (fitInit p0 lr0)).stopped = decide (n = 21) ∧
      ((fitStep f)^[n] (fitInit p0 lr0)).schedBad
        = (if n ≤ 11 then n - 1 else n - 12) ∧
      ((fitStep f)^[n] (fitInit p0 lr0)).lr
        = (if n ≤ 11 then lr0 else lr0 * (1 / 2)) := by
  intro n
  induction n with
  | zero => intro h; exact absurd h (by omega)
  | succ n ih =>
      intro _ h21
      rcases Nat.eq_zero_or_pos n with hn0 | hn1
      · subst hn0
        rw [Function.iterate_one, fitStep_first f p0 lr0 hf]
        refine ⟨rfl, rfl, rfl, rfl, rfl, by simp, by simp, by simp⟩
      · obtain ⟨h1, h2, h3, h4, h5, h6, h7, h8⟩ := ih hn1 (by omega)
        have hstop : ((fitStep f)^[n] (fitInit p0 lr0)).stopped = false := by
          rw [h6]
          simp
          omega
        rw [Function.iterate_succ_apply',
          fitStep_plateau f _ hf hstop h3 h4]
        have hplat : plateauNext ((fitStep f)^[n] (fitInit p0 lr0)).lr
              (((fitStep f)^[n] (fitInit p0 lr0)).schedBad + 1)
            = ((if n + 1 ≤ 11 then lr0 else lr0 * (1 / 2)),
               (if n + 1 ≤ 11 then n else n + 1 - 12)) := by
          rw [h7, h8]
          rcases Nat.lt_or_ge n 11 with hn11 | hn11
          · rw [if_pos (show n ≤ 11 by omega), if_pos (show n ≤ 11 by omega)]
            unfold plateauNext
            rw [if_neg (show ¬ 10 < n - 1 + 1 by omega)]
            rw [if_pos (show n + 1 ≤ 11 by omega), if_pos (show n + 1 ≤ 11 by omega)]
            rw [Prod.mk.injEq]
            exact ⟨rfl, by omega⟩
          · rcases Nat.eq_or_lt_of_le hn11 with hn11e | hn11g
            · rw [if_pos (show n ≤ 11 by omega), if_pos (show n ≤ 11 by omega)]
              unfold plateauNext
              rw [if_pos (show 10 < n - 1 + 1 by omega), if_pos hlr]
              rw [if_neg (show ¬ n + 1 ≤ 11 by omega),
                if_neg (show ¬ n + 1 ≤ 11 by omega)]
              rw [Prod.mk.injEq]
              exact ⟨rfl, by omega⟩
            · rw [if_neg (show ¬ n ≤ 11 by omega), if_neg (show ¬ n ≤ 11 by omega)]
              unfold plateauNext
              rw [if_neg (show ¬ 10 < n - 12 + 1 by omega)]
              rw [if_neg (show ¬ n + 1 ≤ 11 by omega),
                if_neg (show ¬ n + 1 ≤ 11 by omega)]
              rw [Prod.mk.injEq]
              exact ⟨rfl, by omega⟩
        rw [hplat, h1, h2, h5]
        refine ⟨rfl, show n - 1 + 1 = n + 1 - 1 by omega, rfl, rfl, rfl, ?_,
          rfl, rfl⟩
        show decide (20 ≤ n - 1 + 1) = decide (n + 1 = 21)
        exact decide_eq_decide.mpr (by omega)

/-- A stopped fit-loop state is a fixed point of `fitStep`. -/
theorem fitStep_stopped {P : Type} (f : ℚ → ℚ → P → P × ℚ) (st : FitState P)
    (h : st.stopped = true) : fitStep f st = st := by
  unfold fitStep
  rw [h]
  simp

/-- C2 counterexample: instantiate the engine with one-epoch dynamics
that increment a parameter counter and always report loss 1 (no
improvement after epoch 1), `epochs = 25`, `N = 4`, `T = 2`,
`lookback = 1` and a prediction that echoes the counter.  The engine's
phase-1 training runs all 25 epochs and its final state (25) is what the
walk-forward prediction uses, so the recorded prediction is 25 — not 1
(what a best-loss snapshot would give) and not 21 (where a patience-20
early stop would have halted).  This refutes the claim that the engine's
initial batch training early-stops and keeps the best-loss snapshot. -/
theorem C2_counterexample :
    rolling_forecast_ffnn (P := ℕ) (G := Unit) id id (fun p _ => (p : ℚ))
        (fun _ _ _ => ()) (fun _ p => (p + 1, 1)) 0 (fun _ => 0) (fun _ => 1)
        4 2 1 1 25
      = .pair [1] [25] ∧ (25 : ℚ) ≠ 1 ∧ (25 : ℚ) ≠ 21 := by
  refine ⟨?_, by norm_num, by norm_num⟩
  rw [rolling_main_branch (P := ℕ) (G := Unit) id id (fun p _ => (p : ℚ))
    (fun _ _ _ => ()) (fun _ p => (p + 1, 1)) 0 (fun _ => 0) (fun _ => 1)
    4 2 1 1 25 (by decide)]
  have hts : (engineTs 4 2).toNat = 2 := by decide
  have hinit : ∀ (n p : ℕ),
      engineInitialTrain (P := ℕ) (fun p => (p + 1, (1 : ℚ))) n p = p + n := by
    intro n
    induction n with
    | zero => intro p; rfl
    | succ n ih =>
        intro p
        show engineInitialTrain _ n (p + 1) = p + (n + 1)
        rw [ih (p + 1)]
        omega
  have hsc : engineScaler id (fun _ => (0 : ℚ)) 2 = ⟨0, 1⟩ := by
    unfold engineScaler fitScaler
    norm_num [List.range_succ]
  have hphase : enginePhase1 (P := ℕ) id (fun _ p => (p + 1, 1)) 0 25
      (fun _ => 0) 2 1 = 25 := by
    unfold enginePhase1
    rw [hinit 25 0]
  rw [hts]
  simp only [hsc, hphase]
  norm_num [List.range'_succ, List.filterMap_cons, rollWindow, List.range_succ,
    scTransform, scInverse]

/-- C2 (amended): the clipping/plateau/early-stop/best-snapshot machinery
belongs to `train_and_predict_ffnn_step`'s loop, which the Rolling
Forecast Engine never calls.  (1) The engine's phase-1 initial training
is a plain loop: it applies the epoch pass exactly `epochs` times,
ignoring the reported losses, and keeps the final state.  (2) The
`train_and_predict_ffnn_step` loop (its epoch pass invoked with clip cap
1.0 and the scheduler-managed learning rate) under a constant loss of 1
runs exactly 21 epochs for any budget of at least 21 (the patience-20
early stop), halves the learning rate once (the plateau policy, at epoch
12), and predicts with the best-loss snapshot taken after epoch 1 — not
the final parameters. -/
theorem C2_amended_training_loops {P : Type} :
    (∀ (f : P → P × ℚ) (epochs : ℕ) (p : P),
      engineInitialTrain f epochs p = (fun q => (f q).1)^[epochs] p) ∧
    (∀ (f : ℚ → ℚ → P → P × ℚ) (p0 : P) (lr0 : ℚ),
      (∀ c lr p, (f c lr p).2 = 1) →
      1 / 100000000 < lr0 - lr0 * (1 / 2) →
      ∀ epochs, 21 ≤ epochs →
        ((fitStep f)^[epochs] (fitInit p0 lr0)).epochsRun = 21 ∧
        ((fitStep f)^[epochs] (fitInit p0 lr0)).stopped = true ∧
        ((fitStep f)^[epochs] (fitInit p0 lr0)).lr = lr0 * (1 / 2) ∧
        fitResultParams f epochs p0 lr0 = (f 1 lr0 p0).1) := by
  constructor
  · intro f epochs
    induction epochs with
    | zero => intro p; rfl
    | succ n ih =>
        intro p
        show engineInitialTrain f n (f p).1 = _
        rw [ih (f p).1, Function.iterate_succ_apply]
  · intro f p0 lr0 hf hlr epochs hep
    obtain ⟨k, rfl⟩ : ∃ k, epochs = k + 21 := ⟨epochs - 21, by omega⟩
    obtain ⟨h1, h2, h3, h4, h5, h6, h7, h8⟩ :=
      fitTraj f p0 lr0 hf hlr 21 (by omega) (by omega)
    have hstop : ((fitStep f)^[21] (fitInit p0 lr0)).stopped = true := by
      rw [h6]
      simp
    have hfix : (fitStep f)^[k + 21] (fitInit p0 lr0)
        = (fitStep f)^[21] (fitInit p0 lr0) := by
      rw [Function.iterate_add_apply]
      exact Function.iterate_fixed
        (fitStep_stopped f _ hstop) k
    refine ⟨by rw [hfix, h1], by rw [hfix, hstop], ?_, ?_⟩
    · rw [hfix, h8]
      norm_num
    · unfold fitResultParams
      rw [hfix]
      simp only [h5]

/-- Witness for C2 (amended) with counter dynamics `(n, lr) ↦ n + 1`,
constant loss 1, `lr0 = 1` and budget 30: the engine loop equals 3
iterated plain steps at budget 3, and the fit loop stops at 21 epochs,
halves the rate and returns the epoch-1 snapshot. -/
theorem C2_amended_witness :
    engineInitialTrain (P := ℕ) (fun n => (n + 1, (1 : ℚ))) 3 0
      = (fun q => (((fun n => (n + 1, (1 : ℚ))) q).1))^[3] 0 ∧
    ((fitStep (P := ℕ) (fun _ _ n => (n + 1, 1)))^[30] (fitInit 0 1)).epochsRun
      = 21 ∧
    ((fitStep (P := ℕ) (fun _ _ n => (n + 1, 1)))^[30] (fitInit 0 1)).lr
      = 1 * (1 / 2) ∧
    fitResultParams (P := ℕ) (fun _ _ n => (n + 1, 1)) 30 0 1
      = ((fun (_ : ℚ) (_ : ℚ) (n : ℕ) => (n + 1, (1 : ℚ))) 1 1 0).1 := by
  have h2 := (C2_amended_training_loops (P := ℕ)).2 (fun _ _ n => (n + 1, 1))
    0 1 (fun _ _ _ => rfl) (by norm_num) 30 (by decide)
  exact ⟨(C2_amended_training_loops (P := ℕ)).1 (fun n => (n + 1, (1 : ℚ))) 3 0,
    h2.1, h2.2.2.1, h2.2.2.2⟩
